import Mathlib

/-!
Verification of the nucleus-cloud-ops discovery lambda.

Shallow embedding of the pure control and data logic of
src/lambda/discovery/src/inventory_runner.py and
src/lambda/discovery/src/data_processor.py.

External effects (AWS API calls, DynamoDB writes, sleeps) are modelled by
explicit oracles/state: an API call is a function from the attempt number to
an outcome, the DynamoDB table is a list of records, and sleeping is
accounted for by accumulating the sleep durations.
-/

set_option autoImplicit false

universe u

/-! ## Retrying API invoker (inventory_runner.api_call_with_retry) -/

/-- Outcome of one underlying boto3 call attempt: a successful return value, a
botocore ClientError carrying an error code, or a BotoCoreError. -/
inductive CallOutcome (α : Type u) where
  | success (v : α)
  | clientError (code : String)
  | botoCoreError

/-- Result of running the retry loop: the returned value
(ok none models the Python return None after exhausting retries,
error code models an uncaught re-raised ClientError), together with the
total seconds slept and the number of call attempts made. -/
structure InvokeRes (α : Type u) where
  result : Except String (Option α)
  totalSleep : Nat
  attempts : Nat

/-- The error codes treated as throttling by api_call_with_retry. -/
def throttlingCodes : List String := ["Throttling", "RequestLimitExceeded"]

/-- The retry loop body of api_call_with_retry (inventory_runner.py lines
66-90), one constructor case per Python branch.  remaining counts the loop
iterations left (initially maxRetries), attempt is the Python loop variable,
sleepAcc accumulates time.sleep durations and att counts attempts made. -/
def apiCallAux {α : Type u} (call : Nat → CallOutcome α) (maxRetries retryDelay : Nat) :
    Nat → Nat → Nat → Nat → InvokeRes α
  | 0, _, sleepAcc, att => { result := .ok none, totalSleep := sleepAcc, attempts := att }
  | remaining + 1, attempt, sleepAcc, att =>
    match call attempt with
    | .success v => { result := .ok (some v), totalSleep := sleepAcc, attempts := att + 1 }
    | .clientError code =>
      if throttlingCodes.contains code then
        if attempt < maxRetries - 1 then
          apiCallAux call maxRetries retryDelay remaining (attempt + 1)
            (sleepAcc + retryDelay ^ attempt) (att + 1)
        else
          apiCallAux call maxRetries retryDelay remaining (attempt + 1) sleepAcc (att + 1)
      else
        { result := .error code, totalSleep := sleepAcc, attempts := att + 1 }
    | .botoCoreError =>
      if attempt < maxRetries - 1 then
        apiCallAux call maxRetries retryDelay remaining (attempt + 1)
          (sleepAcc + retryDelay ^ attempt) (att + 1)
      else
        apiCallAux call maxRetries retryDelay remaining (attempt + 1) sleepAcc (att + 1)

/-- api_call_with_retry: run the attempt loop for maxRetries iterations,
starting at attempt 0 with nothing slept. -/
def api_call_with_retry {α : Type u} (call : Nat → CallOutcome α)
    (maxRetries retryDelay : Nat) : InvokeRes α :=
  apiCallAux call maxRetries retryDelay maxRetries 0 0 0

/-- Concrete call used to refute claim C8: a BotoCoreError (not a
rate-limit-class error) on the first attempt, success afterwards. -/
def botoThenSuccess : Nat → CallOutcome Nat :=
  fun attempt => if attempt = 0 then .botoCoreError else .success 7

/-! ## Reconciliation (data_processor.mark_missing_resources) -/

/-- One persisted inventory row of the account, as projected by the
reconciliation query (ProjectionExpression sk, resourceArn, discoveryStatus)
plus the lastDiscoveredAt attribute that update_item rewrites.  The partition
key pk is fixed to the account and left implicit. -/
structure InvRecord where
  sk : String
  resourceArn : String
  discoveryStatus : String
  lastDiscoveredAt : String

/-- The records selected for the missing transition: status active, a
non-empty ARN (the query filter at data_processor.py lines 323-326), and the
ARN absent from the discovered set. -/
def shouldMark (discovered_arns : List String) (r : InvRecord) : Bool :=
  r.discoveryStatus == "active" && r.resourceArn != "" &&
    !(discovered_arns.contains r.resourceArn)

/-- mark_missing_resources: every selected record is updated in place to
discoveryStatus missing with a fresh timestamp; returns the new table
contents and the count of updated rows. -/
def mark_missing_resources (table : List InvRecord) (discovered_arns : List String)
    (timestamp : String) : List InvRecord × Nat :=
  (table.map fun r =>
      if shouldMark discovered_arns r then
        { r with discoveryStatus := "missing", lastDiscoveredAt := timestamp }
      else r,
    (table.filter (shouldMark discovered_arns)).length)

/-! ## Persistence (data_processor.process_and_store_resources)

A normalized resource is a dict produced by normalize_resources; it always
carries the keys read here, with string values for the identifier fields, so
the dict reads with defaults in the Python are total field reads, and the
empty string plays the role of a falsy/absent value. -/

/-- Normalized resource as consumed by the persistence stage. -/
structure NormResource where
  resourceType : String
  region : String
  service : String
  resourceId : String
  resourceArn : String
  name : String
  state : String
  tags : List (String × String)

/-- generate_resource_arn (data_processor.py lines 24-35): keep a truthy
existing ARN, otherwise synthesize a pseudo-ARN from the resource fields. -/
def generate_resource_arn (r : NormResource) (account_id : String) : String :=
  if r.resourceArn ≠ "" then r.resourceArn
  else
    "arn:aws:" ++ r.service ++ ":" ++ r.region ++ ":" ++ account_id ++ ":" ++
      r.resourceType ++ "/" ++ r.resourceId

/-- The DynamoDB item built for one resource (data_processor.py lines
220-247).  tags and service are optional attributes, present only when the
corresponding resource values are truthy. -/
structure StoreItem where
  pk : String
  sk : String
  gsi1pk : String
  gsi1sk : String
  gsi2pk : String
  gsi2sk : String
  gsi3pk : String
  gsi3sk : String
  resourceId : String
  resourceArn : String
  resourceType : String
  name : String
  region : String
  state : String
  accountId : String
  lastDiscoveredAt : String
  discoveryStatus : String
  tags : Option (List (String × String))
  service : Option String

/-- Build the DynamoDB item for one resource. -/
def buildItem (account_id timestamp : String) (r : NormResource) : StoreItem :=
  let resource_arn := generate_resource_arn r account_id
  { pk := "ACCOUNT#" ++ account_id
    sk := "INVENTORY#" ++ r.resourceType ++ "#" ++ resource_arn
    gsi1pk := "TYPE#INVENTORY"
    gsi1sk := r.resourceType ++ "#" ++ r.region ++ "#" ++ r.name
    gsi2pk := "REGION#" ++ r.region
    gsi2sk := r.resourceType ++ "#" ++ timestamp
    gsi3pk := "RESOURCE_TYPE#" ++ r.resourceType
    gsi3sk := account_id ++ "#" ++ r.resourceId
    resourceId := r.resourceId
    resourceArn := resource_arn
    resourceType := r.resourceType
    name := r.name
    region := r.region
    state := r.state
    accountId := account_id
    lastDiscoveredAt := timestamp
    discoveryStatus := "active"
    tags := if r.tags ≠ [] then some r.tags else none
    service := if r.service ≠ "" then some r.service else none }

/-- The skip guard of the item loop: resources without a valid id are
silently dropped (data_processor.py lines 215-217). -/
def validResource (r : NormResource) : Bool :=
  !(r.resourceId == "" || r.resourceId == "unknown")

/-- The item-building loop: one item per resource with a valid id, in input
order. -/
def buildItems (account_id timestamp : String) : List NormResource → List StoreItem
  | [] => []
  | r :: rest =>
    if validResource r then
      buildItem account_id timestamp r :: buildItems account_id timestamp rest
    else
      buildItems account_id timestamp rest

/-- Ordered-dict insertion with Python dict semantics: an existing key keeps
its position and gets the new value, a new key is appended at the end. -/
def odInsert {κ α : Type} [DecidableEq κ] (k : κ) (v : α) :
    List (κ × α) → List (κ × α)
  | [] => [(k, v)]
  | e :: rest => if e.1 = k then (k, v) :: rest else e :: odInsert k v rest

/-- Build the unique_items dict of data_processor.py lines 251-255 by folding
the items left to right. -/
def odOfList {κ α : Type} [DecidableEq κ] (keyOf : α → κ) (items : List α) :
    List (κ × α) :=
  items.foldl (fun acc it => odInsert (keyOf it) it acc) []

/-- The deduplication step: keep, per key, the last item in input order
(list(unique_items.values())). -/
def dedupLastWins {κ α : Type} [DecidableEq κ] (keyOf : α → κ) (items : List α) :
    List α :=
  (odOfList keyOf items).map Prod.snd

/-- The dict key used for deduplication: the full DynamoDB primary key. -/
def itemKey (it : StoreItem) : String × String := (it.pk, it.sk)

/-- items_to_write after deduplication (data_processor.py line 257). -/
def items_to_write (account_id timestamp : String) (rs : List NormResource) :
    List StoreItem :=
  dedupLastWins itemKey (buildItems account_id timestamp rs)

/-- Batching into chunks of 25 (the DynamoDB batch_write_item limit),
mirroring the range(0, len, 25) slicing loop. -/
def chunk25 {α : Type} : List α → List (List α)
  | [] => []
  | x :: xs => ((x :: xs).take 25) :: chunk25 ((x :: xs).drop 25)
termination_by l => l.length
decreasing_by
  simp only [List.length_drop, List.length_cons]
  omega

/-- The count returned by process_and_store_resources on the success path
(no write errors, no unprocessed items): each batch contributes its size to
total_written.  The empty-input early return yields 0. -/
def process_and_store_count (account_id timestamp : String)
    (rs : List NormResource) : Nat :=
  if rs.isEmpty then 0
  else ((chunk25 (items_to_write account_id timestamp rs)).map List.length).sum

/-! ## Normalizer (inventory_runner.normalize_resources and
extract_resource_identifiers)

Raw API payloads are parsed JSON: strings, numbers, booleans, null, lists
and string-keyed objects.  Python dicts are modelled as association lists
with unique keys, so a key lookup is the first match. -/

/-- A raw JSON value from a service response. -/
inductive RawVal where
  | str (s : String)
  | num (n : Int)
  | bool (b : Bool)
  | null
  | list (items : List RawVal)
  | dict (entries : List (String × RawVal))

/-- Python truthiness of a raw value. -/
def rvTruthy : RawVal → Bool
  | .str s => s ≠ ""
  | .num n => n ≠ 0
  | .bool b => b
  | .null => false
  | .list l => !l.isEmpty
  | .dict d => !d.isEmpty

/-- Python hashability of a raw value: lists and dicts are unhashable, so
using one as a dict key raises TypeError. -/
def rvHashable : RawVal → Bool
  | .list _ => false
  | .dict _ => false
  | _ => true

/-- Python equality between hashable dict keys: strings, numbers, booleans
and None compare by value, with the bool/int identification True == 1 and
False == 0; values of different kinds are otherwise unequal. -/
def rvKeyEq : RawVal → RawVal → Bool
  | .str a, .str b => a == b
  | .num a, .num b => a == b
  | .bool a, .bool b => a == b
  | .num a, .bool b => a == (if b then 1 else 0)
  | .bool a, .num b => (if a then (1 : Int) else 0) == b
  | .null, .null => true
  | _, _ => false

/-- Dict key lookup: the value of the first (unique) matching key. -/
def lookupRaw : List (String × RawVal) → String → Option RawVal
  | [], _ => none
  | (k1, v) :: rest, k => if k1 = k then some v else lookupRaw rest k

/-- The prioritized key scan - the value of the first key of the priority
list present in the object, mirroring the break on first hit. -/
def firstPresent (item : List (String × RawVal)) : List String → Option RawVal
  | [] => none
  | k :: rest =>
    match lookupRaw item k with
    | some v => some v
    | none => firstPresent item rest

/-- The id-key priority list (inventory_runner.py lines 901-907). -/
def idKeys : List String :=
  ["InstanceId", "DBInstanceIdentifier", "DBClusterIdentifier", "ClusterIdentifier",
   "FunctionName", "BucketName", "VolumeId", "VpcId", "SubnetId", "GroupId",
   "KeyId", "AutoScalingGroupName", "LoadBalancerArn", "TopicArn", "QueueUrl",
   "FileSystemId", "NatGatewayId", "DistributionId", "TableName", "StreamName",
   "CacheClusterId", "ReplicationGroupId", "ClusterArn", "ServiceArn", "TaskArn"]

/-- The ARN-key priority list (lines 915-917). -/
def arnKeys : List String :=
  ["Arn", "ARN", "FunctionArn", "DBInstanceArn", "DBClusterArn",
   "LoadBalancerArn", "TopicArn", "QueueArn", "FileSystemArn",
   "KeyArn", "ClusterArn", "ServiceArn", "TaskArn", "TableArn"]

/-- The name-key priority list (lines 925-927). -/
def nameKeys : List String :=
  ["Name", "DBInstanceIdentifier", "DBClusterIdentifier", "FunctionName",
   "BucketName", "AutoScalingGroupName", "LoadBalancerName", "FileSystemId",
   "TableName", "TopicName", "QueueName"]

/-- The state-key chain of nested gets (lines 944-945). -/
def stateKeys : List String := ["State", "DBInstanceStatus", "Status", "InstanceStatus"]

/-- All keys the identifier extraction recognizes. -/
def recognizedKeys : List String :=
  idKeys ++ arnKeys ++ nameKeys ++ stateKeys ++ ["Tags", "TagList", "tags"]

/-- Scan a tag list for the first dict entry whose Key equals Name and give
its Value (default empty string), mirroring lines 936-941. -/
def findTagName : List RawVal → Option RawVal
  | [] => none
  | .dict d :: rest =>
    match lookupRaw d "Key" with
    | some (.str "Name") => some ((lookupRaw d "Value").getD (.str ""))
    | _ => findTagName rest
  | _ :: rest => findTagName rest

/-- State extraction (lines 943-949): unwrap a dict state through Name then
Code, keep a string state, keep the unknown default otherwise. -/
def extractState (item : List (String × RawVal)) : RawVal :=
  match (firstPresent item stateKeys).getD (.dict []) with
  | .dict d => (lookupRaw d "Name").getD ((lookupRaw d "Code").getD (.str "unknown"))
  | .str s => .str s
  | _ => .str "unknown"

/-- Update of an already-built Python dict under a hashable key: an existing
equal key keeps its place (and its original key object) and gets the new
value, a new key is appended. -/
def pyDictUpdate (k v : RawVal) : List (RawVal × RawVal) → List (RawVal × RawVal)
  | [] => [(k, v)]
  | e :: rest => if rvKeyEq e.1 k then (e.1, v) :: rest else e :: pyDictUpdate k v rest

/-- Python dict insertion: raises TypeError (modelled as an error value) when
the key is unhashable, otherwise updates the dict. -/
def pyDictInsert (k v : RawVal) (d : List (RawVal × RawVal)) :
    Except Unit (List (RawVal × RawVal)) :=
  if rvHashable k then .ok (pyDictUpdate k v d) else .error ()

/-- The evaluation loop of the tag dict comprehension: dict-shaped tags are
inserted one by one (aborting with TypeError on an unhashable Key value),
other tags are skipped by the isinstance filter. -/
def tagsCompAux (acc : List (RawVal × RawVal)) : List RawVal →
    Except Unit (List (RawVal × RawVal))
  | [] => .ok acc
  | .dict d :: rest =>
    match pyDictInsert ((lookupRaw d "Key").getD (.str ""))
        ((lookupRaw d "Value").getD (.str "")) acc with
    | .error e => .error e
    | .ok acc2 => tagsCompAux acc2 rest
  | _ :: rest => tagsCompAux acc rest

/-- The tag dict comprehension of lines 953-957: one entry per dict-shaped
tag, keyed by its Key value (default empty), valued by its Value value
(default empty), later duplicates overwriting earlier ones; raises when a
Key value is an unhashable list or dict. -/
def tagsComp (tags : List RawVal) : Except Unit (List (RawVal × RawVal)) :=
  tagsCompAux [] tags

/-- Tags extraction (lines 951-959): flatten a list shape through the
comprehension (which can raise), pass a dict shape through, else keep the
initial empty dict. -/
def extractTags (item : List (String × RawVal)) :
    Except Unit (List (RawVal × RawVal)) :=
  match (firstPresent item ["Tags", "TagList", "tags"]).getD (.list []) with
  | .list l => tagsComp l
  | .dict d => .ok (d.map (fun e => (.str e.1, e.2)))
  | _ => .ok []

/-- A tag that the comprehension can insert without raising: either not
dict-shaped (skipped) or carrying a hashable Key value. -/
def tagKeyHashable : RawVal → Bool
  | .dict d => rvHashable ((lookupRaw d "Key").getD (.str ""))
  | _ => true

/-- An object item whose tag extraction cannot raise: if its tag shape is a
list, every tag in it has a hashable Key. -/
def hashableTagKeys (item : List (String × RawVal)) : Bool :=
  match (firstPresent item ["Tags", "TagList", "tags"]).getD (.list []) with
  | .list l => l.all tagKeyHashable
  | _ => true

/-- The identifier slots filled by extract_resource_identifiers (initial
values: empty strings, unknown state, empty tags). -/
structure Identifiers where
  resourceId : RawVal
  resourceArn : RawVal
  name : RawVal
  state : RawVal
  tags : List (RawVal × RawVal)

/-- The name slot (lines 925-941 and 962-963): first present name key, else
the tag list scanned for a Name entry, else the resourceId. -/
def extractName (item : List (String × RawVal)) : RawVal :=
  let name0 := (firstPresent item nameKeys).getD (.str "")
  let name1 :=
    if rvTruthy name0 then name0
    else
      match (lookupRaw item "Tags").getD ((lookupRaw item "TagList").getD (.list [])) with
      | .list l => (findTagName l).getD name0
      | _ => name0
  if rvTruthy name1 then name1 else (firstPresent item idKeys).getD (.str "")

/-- extract_resource_identifiers (inventory_runner.py lines 890-965).  The
identifier slot computations are all total; the tag dict comprehension is
the one step that can raise (a TypeError on an unhashable tag Key), which
aborts the whole extraction, so the function either raises with it or fills
every slot. -/
def extract_resource_identifiers (item : List (String × RawVal)) :
    Except Unit Identifiers :=
  match extractTags item with
  | .error e => .error e
  | .ok tags =>
    .ok { resourceId := (firstPresent item idKeys).getD (.str "")
          resourceArn := (firstPresent item arnKeys).getD (.str "")
          name := extractName item
          state := extractState item
          tags := tags }

/-- resourceType derivation: service_operation with the verb prefixes
describe_, list_ and get_ removed (all occurrences, as str.replace does). -/
def stripVerbs (s : String) : String :=
  ((s.replace "describe_" "").replace "list_" "").replace "get_" ""

/-- The canonical record produced by the normalizer for one raw item. -/
structure NormalizedItem where
  resourceType : String
  region : String
  service : String
  resourceId : RawVal
  resourceArn : RawVal
  name : RawVal
  state : RawVal
  tags : List (RawVal × RawVal)
  rawData : RawVal

/-- Last path-or-colon segment of a bare string item (lines 867-869). -/
def lastSegment (s : String) : String :=
  if s.contains '/' then (s.splitOn "/").getLastD ""
  else (s.splitOn ":").getLastD ""

/-- Normalization of a single raw item (the loop body of lines 860-885):
a string item is self-describing, an object item goes through identifier
extraction (propagating a raised TypeError), any other shape is skipped
(the else-continue branch, yielding no record). -/
def normalizeItem (service oper region : String) : RawVal →
    Except Unit (Option NormalizedItem)
  | .str s =>
    .ok (some
      { resourceType := stripVerbs (service ++ "_" ++ oper)
        region := region
        service := service
        resourceId := .str (lastSegment s)
        resourceArn := .str (if s.startsWith "arn:" then s else "")
        name := .str (lastSegment s)
        state := .str "unknown"
        tags := []
        rawData := .str s })
  | .dict d =>
    match extract_resource_identifiers d with
    | .error e => .error e
    | .ok ids =>
      .ok (some
        { resourceType := stripVerbs (service ++ "_" ++ oper)
          region := region
          service := service
          resourceId := ids.resourceId
          resourceArn := ids.resourceArn
          name := ids.name
          state := ids.state
          tags := ids.tags
          rawData := .dict d })
  | _ => .ok none

/-- The normalization loop over the items: appended records in order, with
an uncaught exception from any item aborting the whole run. -/
def normalizeList (service oper region : String) : List RawVal →
    Except Unit (List NormalizedItem)
  | [] => .ok []
  | it :: rest =>
    match normalizeItem service oper region it with
    | .error e => .error e
    | .ok none => normalizeList service oper region rest
    | .ok (some r) =>
      match normalizeList service oper region rest with
      | .error e => .error e
      | .ok rs => .ok (r :: rs)

/-- normalize_resources: falsy raw data yields nothing, a list is processed
item by item, any other value is wrapped as a single item; a TypeError
raised while extracting one item propagates out of the function. -/
def normalize_resources (raw : RawVal) (service oper region : String) :
    Except Unit (List NormalizedItem) :=
  if rvTruthy raw then
    normalizeList service oper region
      (match raw with
        | .list l => l
        | _ => [raw])
  else .ok []

/-! ## Deep-scan variants (inventory_runner scan lambda deep / scan s3 deep)

The AWS side of a deep scan is an oracle environment: the primary listing
result and, per item, the outcome of each secondary enrichment call, where
an error value stands for a raised exception. -/

/-- One entry of the primary Lambda listing (the fields the scan touches). -/
structure LambdaFunc where
  functionName : String
  functionArn : String

/-- A listed function after enrichment: tags are attached as Key/Value pairs
when the per-item list_tags call succeeded, absent when it raised. -/
structure LambdaFuncOut where
  functionName : String
  functionArn : String
  tags : Option (List (String × String))

/-- Oracle for the Lambda deep scan: the paginated list_functions outcome
and the list_tags outcome per function ARN. -/
structure LambdaEnv where
  functions : Except Unit (List LambdaFunc)
  listTags : String → Except Unit (List (String × String))

/-- The per-function body of the Lambda deep scan loop (inventory_runner.py
lines 494-519): on a tag-fetch failure the function is appended anyway,
without tags. -/
def lambdaFuncStep (env : LambdaEnv) (f : LambdaFunc) : LambdaFuncOut :=
  match env.listTags f.functionArn with
  | .ok ts => { functionName := f.functionName, functionArn := f.functionArn, tags := some ts }
  | .error _ => { functionName := f.functionName, functionArn := f.functionArn, tags := none }

/-- The Lambda deep scan: none when the listing itself raised (outer except
returning None), otherwise every listed function in order. -/
def scan_lambda_deep (env : LambdaEnv) : Option (List LambdaFuncOut) :=
  match env.functions with
  | .error _ => none
  | .ok funcs => some (funcs.map (lambdaFuncStep env))

/-- A bucket kept by the S3 deep scan, with the tag set fetched for it. -/
structure BucketOut where
  name : String
  tags : List (String × String)

/-- Oracle for the S3 deep scan: the list_buckets outcome and, per bucket
name, the get_bucket_tagging and get_bucket_location outcomes (the location
is the LocationConstraint value, none for null). -/
structure S3Env where
  buckets : Except Unit (List String)
  tagging : String → Except Unit (List (String × String))
  location : String → Except Unit (Option String)

/-- Region attribution of a bucket from its location query (inventory_runner.py
lines 563-567): a falsy constraint means us-east-1 and the
legacy EU value maps to eu-west-1. -/
def bucketRegionOf (loc : Option String) : String :=
  let r :=
    match loc with
    | some l => if l = "" then "us-east-1" else l
    | none => "us-east-1"
  if r = "EU" then "eu-west-1" else r

/-- The per-bucket body of the S3 deep scan loop (lines 544-578): a
tag-fetch failure degrades to empty tags, the bucket is kept only when its
location region equals the scanned region, and a location-lookup failure
skips the bucket (the except/pass branch never appends). -/
def s3BucketStep (env : S3Env) (region_name : String) (b : String) : Option BucketOut :=
  let tags :=
    match env.tagging b with
    | .ok ts => ts
    | .error _ => []
  match env.location b with
  | .ok loc =>
    if bucketRegionOf loc = region_name then some { name := b, tags := tags } else none
  | .error _ => none

/-- The S3 deep scan: none when the listing raised, otherwise the kept
buckets in listing order. -/
def scan_s3_deep (env : S3Env) (region_name : String) : Option (List BucketOut) :=
  match env.buckets with
  | .error _ => none
  | .ok bs => some (bs.filterMap (s3BucketStep env region_name))

/-- S3 oracle with one listed bucket whose location lookup raises. -/
def s3LocationFailEnv : S3Env :=
  { buckets := .ok ["b1"], tagging := fun _ => .ok [],
    location := fun _ => .error () }

/-- S3 oracle with one listed bucket in us-east-1 whose tag fetch raises. -/
def s3TagFailEnv : S3Env :=
  { buckets := .ok ["b1"], tagging := fun _ => .error (),
    location := fun _ => .ok none }

/-- Lambda oracle with one listed function whose tag fetch raises. -/
def lambdaTagFailEnv : LambdaEnv :=
  { functions := .ok [{ functionName := "f1", functionArn := "arn:f1" }],
    listTags := fun _ => .error () }

/-- S3 oracle with one bucket located in ap-south-1 (for region attribution). -/
def s3ApSouthEnv : S3Env :=
  { buckets := .ok ["b1"], tagging := fun _ => .ok [],
    location := fun _ => .ok (some "ap-south-1") }

/-! ## Theorems -/

/-- C1: with maxRetries=3 and retryDelay=2, a call that raises a
throttling-class ClientError on the first two attempts and succeeds on the
third makes the invoker return the successful result having slept
2^0 + 2^1 = 3 seconds over 3 attempts; a call that raises a throttling-class
ClientError on every attempt yields the absent result (None) after exactly
3 attempts. -/
theorem c1_retry_policy {α : Type u} (call : Nat → CallOutcome α) :
    (∀ e0 e1 (v : α),
      call 0 = .clientError e0 → e0 ∈ throttlingCodes →
      call 1 = .clientError e1 → e1 ∈ throttlingCodes →
      call 2 = .success v →
      api_call_with_retry call 3 2 =
        { result := .ok (some v), totalSleep := 3, attempts := 3 }) ∧
    ((∀ a, a < 3 → ∃ e, call a = .clientError e ∧ e ∈ throttlingCodes) →
      (api_call_with_retry call 3 2).result = .ok none ∧
      (api_call_with_retry call 3 2).attempts = 3) := by
  constructor
  · intro e0 e1 v h0 he0 h1 he1 h2
    simp [api_call_with_retry, apiCallAux, h0, he0, h1, he1, h2]
  · intro h
    obtain ⟨e0, h0, he0⟩ := h 0 (by omega)
    obtain ⟨e1, h1, he1⟩ := h 1 (by omega)
    obtain ⟨e2, h2, he2⟩ := h 2 (by omega)
    simp [api_call_with_retry, apiCallAux, h0, he0, h1, he1, h2, he2]

/-- Witness for C1 at concrete calls: one that throttles twice then returns
42, and one that throttles on every attempt. -/
theorem c1_retry_policy_witness :
    api_call_with_retry (fun a => if a < 2 then .clientError "Throttling" else .success (42 : Nat)) 3 2 =
      { result := .ok (some 42), totalSleep := 3, attempts := 3 } ∧
    ((api_call_with_retry (fun _ : Nat => (.clientError "RequestLimitExceeded" : CallOutcome Nat)) 3 2).result = .ok none ∧
      (api_call_with_retry (fun _ : Nat => (.clientError "RequestLimitExceeded" : CallOutcome Nat)) 3 2).attempts = 3) := by
  refine ⟨?_, ?_⟩
  · exact (c1_retry_policy (fun a => if a < 2 then .clientError "Throttling" else .success (42 : Nat))).1
      "Throttling" "Throttling" 42 rfl (by decide) rfl (by decide) rfl
  · exact (c1_retry_policy (fun _ : Nat => (.clientError "RequestLimitExceeded" : CallOutcome Nat))).2
      (fun a _ => ⟨"RequestLimitExceeded", rfl, by decide⟩)

/-- C8 counterexample: a BotoCoreError is not a rate-limit-class error, yet
the invoker does not propagate it: it sleeps 1 second, retries, and returns
the success of the second attempt (2 attempts made, not 1). -/
theorem c8_counterexample :
    (api_call_with_retry botoThenSuccess 3 2 =
      { result := .ok (some 7), totalSleep := 1, attempts := 2 } : Prop) ∧
    botoThenSuccess 0 = .botoCoreError := by
  exact ⟨rfl, rfl⟩

/-- The retry loop run entirely on BotoCoreErrors falls through and returns
the absent result, counting one attempt per remaining iteration. -/
lemma apiCallAux_all_boto {α : Type u} (call : Nat → CallOutcome α)
    (maxRetries retryDelay : Nat) :
    ∀ (remaining attempt sleepAcc att : Nat),
      (∀ a, attempt ≤ a → a < attempt + remaining → call a = .botoCoreError) →
      (apiCallAux call maxRetries retryDelay remaining attempt sleepAcc att).result =
        .ok none ∧
      (apiCallAux call maxRetries retryDelay remaining attempt sleepAcc att).attempts =
        att + remaining := by
  intro remaining
  induction remaining with
  | zero => intro attempt sleepAcc att h; exact ⟨rfl, rfl⟩
  | succ n ih =>
    intro attempt sleepAcc att h
    have hcall : call attempt = .botoCoreError := h attempt (Nat.le_refl _) (by omega)
    by_cases hlt : attempt < maxRetries - 1
    · simp only [apiCallAux, hcall, if_pos hlt]
      have hrec := ih (attempt + 1) (sleepAcc + retryDelay ^ attempt) (att + 1)
        (fun a h1 h2 => h a (by omega) (by omega))
      exact ⟨hrec.1, by rw [hrec.2]; omega⟩
    · simp only [apiCallAux, hcall, if_neg hlt]
      have hrec := ih (attempt + 1) sleepAcc (att + 1)
        (fun a h1 h2 => h a (by omega) (by omega))
      exact ⟨hrec.1, by rw [hrec.2]; omega⟩

/-- C8 amended: a ClientError whose code is outside the throttling class
propagates immediately, with no retry attempt and no sleep; a BotoCoreError
however is retried like throttling rather than propagated, and a call that
raises BotoCoreError on every attempt makes the invoker return the absent
result (never an error) after exactly maxRetries attempts. -/
theorem c8_amended {α : Type u} (maxRetries retryDelay : Nat) :
    (∀ (call : Nat → CallOutcome α) code,
      1 ≤ maxRetries → call 0 = .clientError code →
      code ∉ throttlingCodes →
      api_call_with_retry call maxRetries retryDelay =
        { result := .error code, totalSleep := 0, attempts := 1 }) ∧
    (∀ (call : Nat → CallOutcome α) (v : α),
      2 ≤ maxRetries → call 0 = .botoCoreError → call 1 = .success v →
      (api_call_with_retry call maxRetries retryDelay).result = .ok (some v)) ∧
    (∀ (call : Nat → CallOutcome α),
      (∀ a, a < maxRetries → call a = .botoCoreError) →
      (api_call_with_retry call maxRetries retryDelay).result = .ok none ∧
      (api_call_with_retry call maxRetries retryDelay).attempts = maxRetries) := by
  refine ⟨?_, ?_, ?_⟩
  · intro call code hmax h0 hcode
    obtain ⟨n, rfl⟩ : ∃ n, maxRetries = n + 1 := ⟨maxRetries - 1, by omega⟩
    simp [api_call_with_retry, apiCallAux, h0, hcode]
  · intro call v hmax h0 h1
    obtain ⟨n, rfl⟩ : ∃ n, maxRetries = n + 2 := ⟨maxRetries - 2, by omega⟩
    have hlt : 0 < n + 2 - 1 := by omega
    simp [api_call_with_retry, apiCallAux, h0, h1, hlt]
  · intro call h
    have hrec := apiCallAux_all_boto call maxRetries retryDelay maxRetries 0 0 0
      (fun a h1 h2 => h a (by omega))
    have h2 := hrec.2
    rw [Nat.zero_add] at h2
    exact ⟨hrec.1, h2⟩

/-- Witness for the amended C8: an AccessDenied ClientError on the first
attempt propagates at once; a BotoCoreError then success yields the success;
three straight BotoCoreErrors yield the absent result after 3 attempts. -/
theorem c8_amended_witness :
    api_call_with_retry (fun _ : Nat => (.clientError "AccessDenied" : CallOutcome Nat)) 3 2 =
      { result := .error "AccessDenied", totalSleep := 0, attempts := 1 } ∧
    (api_call_with_retry botoThenSuccess 3 2).result = .ok (some 7) ∧
    ((api_call_with_retry (fun _ : Nat => (.botoCoreError : CallOutcome Nat)) 3 2).result =
        .ok none ∧
      (api_call_with_retry (fun _ : Nat => (.botoCoreError : CallOutcome Nat)) 3 2).attempts = 3) := by
  refine ⟨?_, ?_, ?_⟩
  · exact (c8_amended 3 2).1 (fun _ => .clientError "AccessDenied") "AccessDenied"
      (by omega) rfl (by decide)
  · exact (c8_amended 3 2).2.1 botoThenSuccess 7 (by omega) rfl rfl
  · exact (c8_amended 3 2).2.2 (fun _ => .botoCoreError) (fun a _ => rfl)

/-- Helper: a string starting with the literal arn prefix is non-empty. -/
lemma arn_concat_ne_empty (t : String) : "arn:aws:" ++ t ≠ "" := by
  intro h
  have hlen := congrArg String.length h
  rw [String.length_append] at hlen
  have h8 : ("arn:aws:" : String).length = 8 := by decide
  have h0 : ("" : String).length = 0 := by decide
  omega

/-- C4: the ARN-generation step keeps a non-empty existing resourceArn
unchanged, synthesizes the deterministic pseudo-ARN
arn:aws:service:region:accountId:resourceType/resourceId otherwise, and in
both cases produces a non-empty ARN. -/
theorem c4_arn_generation (r : NormResource) (account_id : String) :
    (r.resourceArn ≠ "" → generate_resource_arn r account_id = r.resourceArn) ∧
    (r.resourceArn = "" → generate_resource_arn r account_id =
      "arn:aws:" ++ r.service ++ ":" ++ r.region ++ ":" ++ account_id ++ ":" ++
        r.resourceType ++ "/" ++ r.resourceId) ∧
    generate_resource_arn r account_id ≠ "" := by
  refine ⟨?_, ?_, ?_⟩
  · intro h; simp [generate_resource_arn, h]
  · intro h; simp [generate_resource_arn, h]
  · by_cases h : r.resourceArn = ""
    · intro hcontra
      have heq : generate_resource_arn r account_id =
          "arn:aws:" ++ r.service ++ ":" ++ r.region ++ ":" ++ account_id ++ ":" ++
            r.resourceType ++ "/" ++ r.resourceId := by
        simp [generate_resource_arn, h]
      rw [heq] at hcontra
      have hlen := congrArg String.length hcontra
      simp only [String.length_append] at hlen
      have h8 : ("arn:aws:" : String).length = 8 := by decide
      have h0 : ("" : String).length = 0 := by decide
      omega
    · simp [generate_resource_arn, h]

/-- Witness for C4 at a resource lacking an ARN. -/
theorem c4_arn_generation_witness :
    generate_resource_arn
        { resourceType := "ec2_instances", region := "us-east-1", service := "ec2",
          resourceId := "i-1", resourceArn := "", name := "i-1", state := "running",
          tags := [] } "123456789012" =
      "arn:aws:ec2:us-east-1:123456789012:ec2_instances/i-1" := by
  have h := (c4_arn_generation
    { resourceType := "ec2_instances", region := "us-east-1", service := "ec2",
      resourceId := "i-1", resourceArn := "", name := "i-1", state := "running",
      tags := [] } "123456789012").2.1 rfl
  simpa using h

/-- C2: after mark_missing_resources, a previously stored active record (its
ARN is non-empty, as every stored record carries a generated ARN) whose ARN
is absent from the discovered set is missing with the fresh timestamp, and
one whose ARN was discovered is left unchanged. -/
theorem c2_reconcile (table : List InvRecord) (arns : List String) (ts : String)
    (i : Nat) (hi : i < table.length)
    (hact : table[i].discoveryStatus = "active")
    (harn : table[i].resourceArn ≠ "") :
    ∀ hj : i < (mark_missing_resources table arns ts).1.length,
      (table[i].resourceArn ∉ arns →
        ((mark_missing_resources table arns ts).1[i]).discoveryStatus = "missing" ∧
        ((mark_missing_resources table arns ts).1[i]).lastDiscoveredAt = ts) ∧
      (table[i].resourceArn ∈ arns →
        (mark_missing_resources table arns ts).1[i] = table[i]) := by
  intro hj
  constructor
  · intro hnot
    have hsm : shouldMark arns table[i] = true := by
      simp [shouldMark, hact, harn, hnot]
    simp [mark_missing_resources, List.getElem_map, hsm]
  · intro hmem
    have hsm : shouldMark arns table[i] = false := by
      simp [shouldMark, hmem]
    simp [mark_missing_resources, List.getElem_map, hsm]

/-- Witness for C2: a single active record is marked missing when its ARN is
undiscovered, and kept intact when its ARN is in the discovered set. -/
theorem c2_reconcile_witness :
    ((mark_missing_resources [⟨"INVENTORY#t#arnA", "arnA", "active", "t0"⟩] [] "T").1.get
        ⟨0, by decide⟩).discoveryStatus = "missing" ∧
    (mark_missing_resources [⟨"INVENTORY#t#arnA", "arnA", "active", "t0"⟩] ["arnA"] "T").1.get
        ⟨0, by decide⟩ = ⟨"INVENTORY#t#arnA", "arnA", "active", "t0"⟩ := by
  constructor
  · exact ((c2_reconcile [⟨"INVENTORY#t#arnA", "arnA", "active", "t0"⟩] [] "T" 0
      (by decide) rfl (by decide) (by decide)).1 (by decide)).1
  · exact (c2_reconcile [⟨"INVENTORY#t#arnA", "arnA", "active", "t0"⟩] ["arnA"] "T" 0
      (by decide) rfl (by decide) (by decide)).2 (by decide)

/-! ### Ordered-dict lemmas for the deduplication step -/

/-- Entries inserted by the fold are consistent: each entry pairs an item
with its own key. -/
lemma odInsert_consistent {κ α : Type} [DecidableEq κ] (keyOf : α → κ) (v : α)
    (d : List (κ × α)) (hd : ∀ e ∈ d, e.1 = keyOf e.2) :
    ∀ e ∈ odInsert (keyOf v) v d, e.1 = keyOf e.2 := by
  induction d with
  | nil => simp [odInsert]
  | cons x rest ih =>
    intro e he
    by_cases hx : x.1 = keyOf v
    · simp only [odInsert, if_pos hx, List.mem_cons] at he
      rcases he with rfl | he
      · rfl
      · exact hd e (List.mem_cons_of_mem _ he)
    · simp only [odInsert, if_neg hx, List.mem_cons] at he
      rcases he with rfl | he
      · exact hd e (List.mem_cons_self _ _)
      · exact ih (fun e he => hd e (List.mem_cons_of_mem _ he)) e he

/-- The key sequence after an insertion: unchanged if the key was present,
otherwise the key is appended. -/
lemma odInsert_keys {κ α : Type} [DecidableEq κ] (k : κ) (v : α) (d : List (κ × α)) :
    (odInsert k v d).map Prod.fst =
      if k ∈ d.map Prod.fst then d.map Prod.fst else d.map Prod.fst ++ [k] := by
  induction d with
  | nil => simp [odInsert]
  | cons x rest ih =>
    by_cases hx : x.1 = k
    · simp [odInsert, hx]
    · simp only [odInsert, if_neg hx, List.map_cons, ih]
      by_cases hk : k ∈ rest.map Prod.fst
      · simp [hk, hx, Ne.symm hx]
      · simp [hk, hx, Ne.symm hx]

/-- Insertion preserves distinctness of the keys. -/
lemma odInsert_keys_nodup {κ α : Type} [DecidableEq κ] (k : κ) (v : α)
    (d : List (κ × α)) (hnd : (d.map Prod.fst).Nodup) :
    ((odInsert k v d).map Prod.fst).Nodup := by
  rw [odInsert_keys]
  by_cases hk : k ∈ d.map Prod.fst
  · simpa [hk] using hnd
  · simp [hk, List.nodup_append, hnd]

/-- If a key is absent from the dict, filtering the values at that key gives
nothing. -/
lemma filter_values_of_not_mem {κ α : Type} [DecidableEq κ] (keyOf : α → κ) (q : κ)
    (d : List (κ × α)) (hc : ∀ e ∈ d, e.1 = keyOf e.2) (hq : q ∉ d.map Prod.fst) :
    (d.map Prod.snd).filter (fun x => decide (keyOf x = q)) = [] := by
  apply List.filter_eq_nil_iff.mpr
  intro b hb
  obtain ⟨e, he, rfl⟩ := List.mem_map.mp hb
  have h1 : e.1 = keyOf e.2 := hc e he
  have h2 : e.1 ∈ d.map Prod.fst := List.mem_map.mpr ⟨e, he, rfl⟩
  simp only [decide_eq_true_eq]
  intro hcontra
  exact hq (by rw [← hcontra, ← h1] at hq ⊢; exact h2)

/-- After inserting an item, filtering the values at its key yields exactly
that item. -/
lemma filter_values_odInsert_self {κ α : Type} [DecidableEq κ] (keyOf : α → κ)
    (v : α) (d : List (κ × α)) (hc : ∀ e ∈ d, e.1 = keyOf e.2)
    (hnd : (d.map Prod.fst).Nodup) :
    ((odInsert (keyOf v) v d).map Prod.snd).filter
        (fun x => decide (keyOf x = keyOf v)) = [v] := by
  induction d with
  | nil => simp [odInsert]
  | cons x rest ih =>
    by_cases hx : x.1 = keyOf v
    · simp only [odInsert, if_pos hx, List.map_cons, List.filter_cons,
        decide_eq_true_eq]
      rw [if_pos trivial]
      have hrest : keyOf v ∉ rest.map Prod.fst := by
        rw [← hx]
        exact (List.nodup_cons.mp (by simpa using hnd)).1
      rw [filter_values_of_not_mem keyOf (keyOf v) rest
        (fun e he => hc e (List.mem_cons_of_mem _ he)) hrest]
    · simp only [odInsert, if_neg hx, List.map_cons, List.filter_cons,
        decide_eq_true_eq]
      have hxv : keyOf x.2 ≠ keyOf v := by
        rw [← hc x (List.mem_cons_self _ _)]; exact hx
      rw [if_neg hxv]
      exact ih (fun e he => hc e (List.mem_cons_of_mem _ he))
        (List.nodup_cons.mp (by simpa using hnd)).2

/-- Inserting an item does not change the values filtered at any other key. -/
lemma filter_values_odInsert_other {κ α : Type} [DecidableEq κ] (keyOf : α → κ)
    (v : α) (q : κ) (hq : q ≠ keyOf v) (d : List (κ × α))
    (hc : ∀ e ∈ d, e.1 = keyOf e.2) :
    ((odInsert (keyOf v) v d).map Prod.snd).filter (fun x => decide (keyOf x = q)) =
      (d.map Prod.snd).filter (fun x => decide (keyOf x = q)) := by
  induction d with
  | nil => simp [odInsert, Ne.symm hq]
  | cons x rest ih =>
    by_cases hx : x.1 = keyOf v
    · simp only [odInsert, if_pos hx, List.map_cons, List.filter_cons,
        decide_eq_true_eq]
      have hxq : keyOf x.2 ≠ q := by
        rw [← hc x (List.mem_cons_self _ _), hx]; exact Ne.symm hq
      rw [if_neg (Ne.symm hq), if_neg hxq]
    · simp only [odInsert, if_neg hx, List.map_cons, List.filter_cons]
      rw [ih (fun e he => hc e (List.mem_cons_of_mem _ he))]

/-- A cons list always has a last element. -/
lemma getLast?_none_iff {α : Type} (l : List α) : l.getLast? = none ↔ l = [] := by
  cases l <;> simp

/-- Main characterization of the unique_items fold: filtering the resulting
values at a key q yields the last input item with key q, or, when no input
item has key q, whatever the accumulator already held at q. -/
lemma foldl_odInsert_filter {κ α : Type} [DecidableEq κ] (keyOf : α → κ) (q : κ) :
    ∀ (items : List α) (acc : List (κ × α)),
      (∀ e ∈ acc, e.1 = keyOf e.2) → (acc.map Prod.fst).Nodup →
      ((items.foldl (fun a it => odInsert (keyOf it) it a) acc).map Prod.snd).filter
          (fun x => decide (keyOf x = q)) =
        ((items.filter (fun x => decide (keyOf x = q))).getLast?).elim
          ((acc.map Prod.snd).filter (fun x => decide (keyOf x = q)))
          (fun x => [x]) := by
  intro items
  induction items with
  | nil => intro acc hc hnd; simp
  | cons it rest ih =>
    intro acc hc hnd
    rw [List.foldl_cons]
    rw [ih (odInsert (keyOf it) it acc)
      (odInsert_consistent keyOf it acc hc)
      (odInsert_keys_nodup (keyOf it) it acc hnd)]
    by_cases hit : keyOf it = q
    · rw [List.filter_cons_of_pos (by simp [hit])]
      cases hfp : rest.filter (fun x => decide (keyOf x = q)) with
      | nil =>
        simp only [hfp, List.getLast?_nil, Option.elim, List.getLast?_singleton]
        rw [← hit]
        exact filter_values_odInsert_self keyOf it acc hc hnd
      | cons y ys =>
        rw [List.getLast?_cons_cons]
        have : ∃ z, (y :: ys).getLast? = some z := by
          cases hz : (y :: ys).getLast? with
          | none => exact absurd (getLast?_none_iff _ |>.mp hz) (by simp)
          | some z => exact ⟨z, rfl⟩
        obtain ⟨z, hz⟩ := this
        simp [hz]
    · rw [List.filter_cons_of_neg (by simp [hit])]
      cases hfp : rest.filter (fun x => decide (keyOf x = q)) with
      | nil =>
        simp only [hfp, List.getLast?_nil, Option.elim]
        exact filter_values_odInsert_other keyOf it q (fun h => hit h.symm) acc hc
      | cons y ys =>
        have : ∃ z, (y :: ys).getLast? = some z := by
          cases hz : (y :: ys).getLast? with
          | none => exact absurd (getLast?_none_iff _ |>.mp hz) (by simp)
          | some z => exact ⟨z, rfl⟩
        obtain ⟨z, hz⟩ := this
        simp [hz]

/-- C3: among the deduplicated items actually written, the items carrying a
given DynamoDB primary key (pk, sk) — for stored inventory records the key
is determined by (accountId, resourceType, resourceArn), as the second
conjunct shows — are exactly the last built item with that key in input
order: duplicates collapse to one record and the last write wins. -/
theorem c3_dedup_last_write_wins (account_id ts p s : String)
    (rs : List NormResource) :
    ((items_to_write account_id ts rs).filter
        (fun it => decide (itemKey it = (p, s))) =
      (((buildItems account_id ts rs).filter
          (fun it => decide (itemKey it = (p, s)))).getLast?).elim []
        (fun x => [x])) ∧
    (∀ r : NormResource, itemKey (buildItem account_id ts r) =
      ("ACCOUNT#" ++ account_id,
        "INVENTORY#" ++ r.resourceType ++ "#" ++ generate_resource_arn r account_id)) := by
  constructor
  · have h := foldl_odInsert_filter itemKey (p, s) (buildItems account_id ts rs) []
      (by simp) (by simp)
    simpa [items_to_write, dedupLastWins, odOfList] using h
  · intro r; rfl

/-- The item-building loop is a filter followed by a map: invalid ids are
dropped before deduplication and batching. -/
lemma buildItems_filter_map (account_id ts : String) (rs : List NormResource) :
    buildItems account_id ts rs =
      (rs.filter validResource).map (buildItem account_id ts) := by
  induction rs with
  | nil => rfl
  | cons r rest ih =>
    by_cases h : validResource r
    · simp [buildItems, List.filter_cons, h, ih]
    · simp [buildItems, List.filter_cons, h, ih]

/-- Inserting into the ordered dict grows it by at most one entry. -/
lemma odInsert_length {κ α : Type} [DecidableEq κ] (k : κ) (v : α)
    (d : List (κ × α)) : (odInsert k v d).length ≤ d.length + 1 := by
  induction d with
  | nil => simp [odInsert]
  | cons x rest ih =>
    by_cases hx : x.1 = k
    · simp [odInsert, hx]
    · simp only [odInsert, if_neg hx, List.length_cons]
      omega

/-- The dict holds at most one entry per input item. -/
lemma odOfList_fold_length {κ α : Type} [DecidableEq κ] (keyOf : α → κ) :
    ∀ (items : List α) (acc : List (κ × α)),
      (items.foldl (fun a it => odInsert (keyOf it) it a) acc).length ≤
        acc.length + items.length := by
  intro items
  induction items with
  | nil => intro acc; simp
  | cons it rest ih =>
    intro acc
    rw [List.foldl_cons]
    calc (rest.foldl (fun a it => odInsert (keyOf it) it a)
            (odInsert (keyOf it) it acc)).length
        ≤ (odInsert (keyOf it) it acc).length + rest.length := ih _
      _ ≤ acc.length + 1 + rest.length := by
          have := odInsert_length (keyOf it) it acc; omega
      _ = acc.length + (it :: rest).length := by simp; omega

/-- The 25-item batches partition the written items: the batch sizes sum to
the full item count. -/
lemma chunk25_sum {α : Type} : ∀ (n : Nat) (l : List α), l.length ≤ n →
    ((chunk25 l).map List.length).sum = l.length := by
  intro n
  induction n with
  | zero =>
    intro l hl
    have : l = [] := List.length_eq_zero.mp (Nat.le_zero.mp hl)
    subst this
    simp [chunk25]
  | succ n ih =>
    intro l hl
    cases l with
    | nil => simp [chunk25]
    | cons x xs =>
      rw [chunk25]
      simp only [List.map_cons, List.sum_cons]
      rw [ih ((x :: xs).drop 25) (by simp at hl ⊢; omega)]
      simp only [List.length_take, List.length_drop, List.length_cons]
      omega

/-- Three normalized resources: two with invalid ids (empty and the literal
unknown) and one valid, used to exhibit a strictly smaller written count. -/
def skippedSampleResources : List NormResource :=
  [{ resourceType := "ec2_instances", region := "us-east-1", service := "ec2",
     resourceId := "", resourceArn := "arn:a", name := "", state := "unknown",
     tags := [] },
   { resourceType := "ec2_instances", region := "us-east-1", service := "ec2",
     resourceId := "unknown", resourceArn := "arn:b", name := "n",
     state := "unknown", tags := [] },
   { resourceType := "ec2_instances", region := "us-east-1", service := "ec2",
     resourceId := "i-1", resourceArn := "", name := "i-1", state := "running",
     tags := [] }]

/-- C10: persistence silently drops every resource whose resourceId is empty
or the literal unknown: the built items are exactly the valid resources in
order (so the filtering happens before deduplication and batching), the
returned count never exceeds the number of valid resources, and on a
concrete input with all batch writes succeeding the count (1) is strictly
smaller than the number of resources passed in (3). -/
theorem c10_skip_invalid_ids (account_id ts : String) (rs : List NormResource) :
    (buildItems account_id ts rs =
      (rs.filter validResource).map (buildItem account_id ts)) ∧
    process_and_store_count account_id ts rs ≤ (rs.filter validResource).length ∧
    (process_and_store_count "123" "T" skippedSampleResources = 1 ∧
      skippedSampleResources.length = 3) := by
  refine ⟨buildItems_filter_map account_id ts rs, ?_, ?_, rfl⟩
  · rw [process_and_store_count]
    by_cases h : rs.isEmpty
    · simp [h]
    · simp only [h, if_false, Bool.false_eq_true]
      rw [chunk25_sum (items_to_write account_id ts rs).length _ (Nat.le_refl _)]
      have h1 : (items_to_write account_id ts rs).length ≤
          (buildItems account_id ts rs).length := by
        have := odOfList_fold_length itemKey (buildItems account_id ts rs) []
        simpa [items_to_write, dedupLastWins, odOfList] using this
      have h2 : (buildItems account_id ts rs).length =
          (rs.filter validResource).length := by
        rw [buildItems_filter_map]; simp
      omega
  · have hne : skippedSampleResources.isEmpty = false := rfl
    rw [process_and_store_count, hne]
    simp only [if_false, Bool.false_eq_true]
    rw [chunk25_sum (items_to_write "123" "T" skippedSampleResources).length _
      (Nat.le_refl _)]
    rfl

/-! ### Normalizer theorems -/

/-- A prioritized scan whose leading keys are all absent resolves to the
first present key. -/
lemma firstPresent_append (item : List (String × RawVal)) (ks1 ks2 : List String)
    (k : String) (v : RawVal) (h1 : ∀ k2 ∈ ks1, lookupRaw item k2 = none)
    (hk : lookupRaw item k = some v) :
    firstPresent item (ks1 ++ k :: ks2) = some v := by
  induction ks1 with
  | nil => simp [firstPresent, hk]
  | cons k0 rest ih =>
    have h0 : lookupRaw item k0 = none := h1 k0 (List.mem_cons_self _ _)
    simp only [List.cons_append, firstPresent, h0]
    exact ih (fun k2 hk2 => h1 k2 (List.mem_cons_of_mem _ hk2))

/-- A prioritized scan over all-absent keys finds nothing. -/
lemma firstPresent_none (item : List (String × RawVal)) (ks : List String)
    (h : ∀ k ∈ ks, lookupRaw item k = none) : firstPresent item ks = none := by
  induction ks with
  | nil => rfl
  | cons k0 rest ih =>
    have h0 : lookupRaw item k0 = none := h k0 (List.mem_cons_self _ _)
    simp only [firstPresent, h0]
    exact ih (fun k2 hk2 => h k2 (List.mem_cons_of_mem _ hk2))

/-- C7: whenever identifier extraction returns (it raises only when the tag
dict comprehension hits an unhashable Key), the resourceId it returns comes
from the first id key of the fixed priority list present in the object; in
particular, on an object carrying both InstanceId and DBInstanceIdentifier
the InstanceId value wins (InstanceId heads the priority list). -/
theorem c7_id_key_priority (item : List (String × RawVal)) (ids : Identifiers)
    (hok : extract_resource_identifiers item = .ok ids) :
    (∀ v w, lookupRaw item "InstanceId" = some v →
      lookupRaw item "DBInstanceIdentifier" = some w →
      ids.resourceId = v) ∧
    (∀ (ks1 ks2 : List String) (k : String) (v : RawVal),
      idKeys = ks1 ++ k :: ks2 →
      (∀ k2 ∈ ks1, lookupRaw item k2 = none) →
      lookupRaw item k = some v →
      ids.resourceId = v) := by
  have hid : ids.resourceId = (firstPresent item idKeys).getD (.str "") := by
    rw [extract_resource_identifiers] at hok
    split at hok
    next e heq => simp at hok
    next ts heq =>
      have hrec := Except.ok.inj hok
      rw [← hrec]
  constructor
  · intro v w hv _
    rw [hid, (by rfl : idKeys = [] ++ "InstanceId" ::
      ["DBInstanceIdentifier", "DBClusterIdentifier", "ClusterIdentifier",
       "FunctionName", "BucketName", "VolumeId", "VpcId", "SubnetId", "GroupId",
       "KeyId", "AutoScalingGroupName", "LoadBalancerArn", "TopicArn", "QueueUrl",
       "FileSystemId", "NatGatewayId", "DistributionId", "TableName", "StreamName",
       "CacheClusterId", "ReplicationGroupId", "ClusterArn", "ServiceArn", "TaskArn"]),
      firstPresent_append item [] _ "InstanceId" v (by simp) hv]
    rfl
  · intro ks1 ks2 k v hsplit h1 hk
    rw [hid, hsplit, firstPresent_append item ks1 ks2 k v h1 hk]
    rfl

/-- Witness for C7: the extraction returns on this item (its tags are
absent, so nothing can raise) and InstanceId wins over DBInstanceIdentifier. -/
theorem c7_id_key_priority_witness :
    ∃ ids, extract_resource_identifiers
        [("DBInstanceIdentifier", .str "db1"), ("InstanceId", .str "i-1")] = .ok ids ∧
      ids.resourceId = .str "i-1" := by
  refine ⟨_, rfl, ?_⟩
  exact (c7_id_key_priority
    [("DBInstanceIdentifier", .str "db1"), ("InstanceId", .str "i-1")] _ rfl).1
    (.str "i-1") (.str "db1") rfl rfl

/-- C6 counterexample: a raw list whose single item is the number 42 (neither
a string nor an object) yields no record - the item is dropped by the
else-continue branch; and a mapping item whose Tags hold an unhashable Key
value (a list) makes normalization raise a TypeError instead of returning a
record for it. -/
theorem c6_counterexample :
    normalize_resources (.list [.num 42]) "ec2" "describe_instances" "us-east-1" =
      .ok [] ∧
    normalize_resources
        (.list [.dict [("Tags", .list [.dict [("Key", .list []), ("Value", .str "v")]])]])
        "ec2" "describe_instances" "us-east-1" = .error () := by
  exact ⟨rfl, rfl⟩

/-- The comprehension loop returns when every dict-shaped tag has a hashable
Key value. -/
lemma tagsCompAux_ok (l : List RawVal) :
    ∀ acc, (∀ t ∈ l, tagKeyHashable t = true) →
      ∃ ts, tagsCompAux acc l = .ok ts := by
  induction l with
  | nil => intro acc _; exact ⟨acc, rfl⟩
  | cons t rest ih =>
    intro acc h
    have hrest : ∀ t2 ∈ rest, tagKeyHashable t2 = true :=
      fun t2 ht2 => h t2 (List.mem_cons_of_mem _ ht2)
    cases t with
    | dict td =>
      have hk : rvHashable ((lookupRaw td "Key").getD (.str "")) = true := by
        have := h _ (List.mem_cons_self _ _)
        simpa [tagKeyHashable] using this
      simp only [tagsCompAux, pyDictInsert, hk, if_true]
      exact ih _ hrest
    | str s => simp only [tagsCompAux]; exact ih _ hrest
    | num n => simp only [tagsCompAux]; exact ih _ hrest
    | bool b => simp only [tagsCompAux]; exact ih _ hrest
    | null => simp only [tagsCompAux]; exact ih _ hrest
    | list li => simp only [tagsCompAux]; exact ih _ hrest

/-- Tag extraction returns on an object whose tag list holds only hashable
Key values. -/
lemma extractTags_ok (d : List (String × RawVal)) (h : hashableTagKeys d = true) :
    ∃ ts, extractTags d = .ok ts := by
  cases hscrut : (firstPresent d ["Tags", "TagList", "tags"]).getD (.list []) with
  | list l =>
    have h2 : ∀ t ∈ l, tagKeyHashable t = true := by
      rw [hashableTagKeys, hscrut] at h
      simpa using h
    obtain ⟨ts, hts⟩ := tagsCompAux_ok l [] h2
    exact ⟨ts, by rw [extractTags, hscrut]; exact hts⟩
  | dict d2 => exact ⟨_, by rw [extractTags, hscrut]⟩
  | str s => exact ⟨[], by rw [extractTags, hscrut]⟩
  | num n => exact ⟨[], by rw [extractTags, hscrut]⟩
  | bool b => exact ⟨[], by rw [extractTags, hscrut]⟩
  | null => exact ⟨[], by rw [extractTags, hscrut]⟩

/-- When tag extraction returns, the whole identifier extraction returns the
record of its slot computations. -/
lemma extract_ok (d : List (String × RawVal)) (ts : List (RawVal × RawVal))
    (h : extractTags d = .ok ts) :
    extract_resource_identifiers d =
      .ok { resourceId := (firstPresent d idKeys).getD (.str ""),
            resourceArn := (firstPresent d arnKeys).getD (.str ""),
            name := extractName d, state := extractState d, tags := ts } := by
  rw [extract_resource_identifiers, h]

/-- An object item whose identifier extraction returns normalizes to one
record carrying the extracted identifiers. -/
lemma normalizeItem_dict_ok (service oper region : String)
    (d : List (String × RawVal)) (ids : Identifiers)
    (h : extract_resource_identifiers d = .ok ids) :
    normalizeItem service oper region (.dict d) =
      .ok (some
        { resourceType := stripVerbs (service ++ "_" ++ oper), region := region,
          service := service, resourceId := ids.resourceId,
          resourceArn := ids.resourceArn, name := ids.name, state := ids.state,
          tags := ids.tags, rawData := .dict d }) := by
  rw [normalizeItem, h]

/-- The normalization loop gives one record per item when every item yields
a record without raising. -/
lemma normalizeList_ok (service oper region : String) (items : List RawVal)
    (h : ∀ it ∈ items, ∃ r, normalizeItem service oper region it = .ok (some r)) :
    ∃ out, normalizeList service oper region items = .ok out ∧
      out.length = items.length := by
  induction items with
  | nil => exact ⟨[], rfl, rfl⟩
  | cons it rest ih =>
    obtain ⟨r, hr⟩ := h it (List.mem_cons_self _ _)
    obtain ⟨out, hout, hlen⟩ := ih (fun a ha => h a (List.mem_cons_of_mem _ ha))
    exact ⟨r :: out, by simp [normalizeList, hr, hout], by simp [hlen]⟩

/-- C6 amended: normalization yields exactly one record per string or object
input item and returns without raising, provided each object item has
hashable tag Key values (the only raising step is the tag comprehension);
an object item carrying none of the recognized keys degrades to the
partially-populated record with empty and unknown defaults; items of any
other shape are skipped, and an unhashable tag Key makes the run raise. -/
theorem c6_degrade_not_drop (service oper region : String) (items : List RawVal)
    (h : ∀ it ∈ items, (∃ s, it = .str s) ∨
      ∃ d, it = .dict d ∧ hashableTagKeys d = true) :
    (∃ out, normalize_resources (.list items) service oper region = .ok out ∧
      out.length = items.length) ∧
    (∀ d : List (String × RawVal),
      (∀ k ∈ recognizedKeys, lookupRaw d k = none) →
      extract_resource_identifiers d =
        .ok { resourceId := .str "", resourceArn := .str "", name := .str "",
              state := .str "unknown", tags := [] }) := by
  constructor
  · cases items with
    | nil => exact ⟨[], rfl, rfl⟩
    | cons x xs =>
      have hall : ∀ it ∈ x :: xs,
          ∃ r, normalizeItem service oper region it = .ok (some r) := by
        intro it hit
        rcases h it hit with ⟨s, rfl⟩ | ⟨d, rfl, hd⟩
        · exact ⟨_, rfl⟩
        · obtain ⟨ts, hts⟩ := extractTags_ok d hd
          exact ⟨_, normalizeItem_dict_ok service oper region d _ (extract_ok d ts hts)⟩
      obtain ⟨out, hout, hlen⟩ := normalizeList_ok service oper region (x :: xs) hall
      refine ⟨out, ?_, hlen⟩
      simpa [normalize_resources, rvTruthy] using hout
  · intro d hd
    have habs : ∀ ks : List String, (∀ k ∈ ks, k ∈ recognizedKeys) →
        firstPresent d ks = none := by
      intro ks hks
      exact firstPresent_none d ks (fun k hk => hd k (hks k hk))
    have hidn : firstPresent d idKeys = none := by
      apply habs; intro k hk; simp [recognizedKeys, hk]
    have harnn : firstPresent d arnKeys = none := by
      apply habs; intro k hk; simp [recognizedKeys, hk]
    have hnamen : firstPresent d nameKeys = none := by
      apply habs; intro k hk; simp [recognizedKeys, hk]
    have hstaten : firstPresent d stateKeys = none := by
      apply habs; intro k hk; simp [recognizedKeys, hk]
    have htagsn : firstPresent d ["Tags", "TagList", "tags"] = none := by
      apply habs; intro k hk; simp [recognizedKeys]
      simp at hk
      rcases hk with rfl | rfl | rfl <;> simp
    have hTags : lookupRaw d "Tags" = none := by
      apply hd; simp [recognizedKeys]
    have hTagList : lookupRaw d "TagList" = none := by
      apply hd; simp [recognizedKeys]
    have hTagsOk : extractTags d = .ok [] := by
      rw [extractTags, htagsn]
      rfl
    have hname : extractName d = .str "" := by
      simp [extractName, hnamen, hTags, hTagList, rvTruthy, findTagName, hidn]
    have hstate : extractState d = .str "unknown" := by
      simp [extractState, hstaten, lookupRaw]
    rw [extract_ok d [] hTagsOk]
    simp [hname, hstate, hidn, harnn]

/-- Witness for the amended C6: a two-item list (one bare ARN string, one
unrecognized object with no tags) yields two records without raising, and
the empty object degrades to the default identifiers. -/
theorem c6_degrade_not_drop_witness :
    (∃ out, normalize_resources (.list [.str "arn:aws:s3:::b", .dict [("foo", .num 1)]])
        "s3" "list_buckets" "us-east-1" = .ok out ∧ out.length = 2) ∧
    extract_resource_identifiers [] =
      .ok { resourceId := .str "", resourceArn := .str "", name := .str "",
            state := .str "unknown", tags := [] } := by
  constructor
  · exact (c6_degrade_not_drop "s3" "list_buckets" "us-east-1"
      [.str "arn:aws:s3:::b", .dict [("foo", .num 1)]]
      (by
        intro it hit
        simp only [List.mem_cons, List.mem_singleton] at hit
        rcases hit with rfl | hit
        · exact Or.inl ⟨_, rfl⟩
        · simp at hit
          subst hit
          exact Or.inr ⟨_, rfl, rfl⟩)).1
  · exact (c6_degrade_not_drop "s3" "list_buckets" "us-east-1" []
      (by intro it hit; simp at hit)).2 [] (fun k _ => rfl)

/-! ### Deep-scan theorems -/

/-- A kept bucket was produced by the step function: it carries the bucket
name and its location query succeeded with a region equal to the scanned
one. -/
lemma s3BucketStep_eq_some (env : S3Env) (r a : String) (e : BucketOut)
    (h : s3BucketStep env r a = some e) :
    e.name = a ∧ ∃ loc2, env.location a = .ok loc2 ∧ bucketRegionOf loc2 = r := by
  rw [s3BucketStep] at h
  split at h
  next loc2 heq =>
    split at h
    next hc =>
      have he := Option.some.inj h
      subst he
      exact ⟨rfl, loc2, heq, hc⟩
    next hc => simp at h
  next heq => simp at h

/-- C5 counterexample: the primary S3 listing produced bucket b1, its tag
fetch succeeded, but the location lookup failed - and the scan result is
empty: the item was dropped, not included without enrichment. -/
theorem c5_counterexample :
    scan_s3_deep s3LocationFailEnv "us-east-1" = some [] ∧
    s3LocationFailEnv.buckets = .ok ["b1"] := by
  exact ⟨rfl, rfl⟩

/-- C5 amended: in the Lambda deep scan every listed function is included,
with tags absent when its tag fetch failed; in the S3 deep scan a tag-fetch
failure is tolerated per item (the bucket is kept, with empty tags, whenever
its location query succeeds and matches the scanned region), but an S3
location-lookup failure drops the bucket. -/
theorem c5_enrichment_failure_tolerance :
    (∀ (env : LambdaEnv) (funcs : List LambdaFunc), env.functions = .ok funcs →
      ∃ out, scan_lambda_deep env = some out ∧ out.length = funcs.length ∧
        ∀ i (hi : i < funcs.length) (ho : i < out.length),
          out[i].functionArn = funcs[i].functionArn ∧
          out[i].functionName = funcs[i].functionName ∧
          (env.listTags funcs[i].functionArn = .error () → out[i].tags = none)) ∧
    (∀ (env : S3Env) (bs : List String) (b : String) (loc : Option String)
        (region : String),
      env.buckets = .ok bs → b ∈ bs → env.tagging b = .error () →
      env.location b = .ok loc → bucketRegionOf loc = region →
      ∃ out, scan_s3_deep env region = some out ∧
        { name := b, tags := [] } ∈ out) := by
  constructor
  · intro env funcs hf
    refine ⟨funcs.map (lambdaFuncStep env), by simp [scan_lambda_deep, hf], by simp, ?_⟩
    intro i hi ho
    simp only [List.getElem_map]
    cases h : env.listTags funcs[i].functionArn with
    | ok ts =>
      refine ⟨by simp [lambdaFuncStep, h], by simp [lambdaFuncStep, h], ?_⟩
      intro he
      simp at he
    | error u =>
      exact ⟨by simp [lambdaFuncStep, h], by simp [lambdaFuncStep, h],
        fun _ => by simp [lambdaFuncStep, h]⟩
  · intro env bs b loc region hbs hb htag hloc hreg
    refine ⟨bs.filterMap (s3BucketStep env region), by simp [scan_s3_deep, hbs], ?_⟩
    apply List.mem_filterMap.mpr
    exact ⟨b, hb, by simp [s3BucketStep, htag, hloc, hreg]⟩

/-- Witness for the amended C5: with a failing tag fetch the single listed
Lambda function is still returned, and the single us-east-1 bucket is still
returned by the us-east-1 scan with empty tags. -/
theorem c5_enrichment_failure_tolerance_witness :
    (∃ out, scan_lambda_deep lambdaTagFailEnv = some out ∧ out.length = 1) ∧
    (∃ out, scan_s3_deep s3TagFailEnv "us-east-1" = some out ∧
      { name := "b1", tags := [] } ∈ out) := by
  constructor
  · obtain ⟨out, h1, h2, _⟩ := c5_enrichment_failure_tolerance.1 lambdaTagFailEnv
      [{ functionName := "f1", functionArn := "arn:f1" }] rfl
    exact ⟨out, h1, h2⟩
  · exact c5_enrichment_failure_tolerance.2 s3TagFailEnv ["b1"] "b1" none "us-east-1"
      rfl (by simp) rfl rfl rfl

/-- C9: a listed bucket whose location query succeeds appears in the scan of
region r iff r is exactly the region its location resolves to (with null
mapped to us-east-1 and EU to eu-west-1); hence it never appears in two
different region scans. -/
theorem c9_s3_region_attribution (env : S3Env) (bs : List String) (b : String)
    (loc : Option String) (hbs : env.buckets = .ok bs) (hb : b ∈ bs)
    (hloc : env.location b = .ok loc) :
    (∀ r, ∃ out, scan_s3_deep env r = some out ∧
      ((∃ e ∈ out, e.name = b) ↔ r = bucketRegionOf loc)) ∧
    (∀ r1 r2 out1 out2, scan_s3_deep env r1 = some out1 →
      scan_s3_deep env r2 = some out2 →
      (∃ e ∈ out1, e.name = b) → (∃ e ∈ out2, e.name = b) → r1 = r2) := by
  have hmain : ∀ r, ∃ out, scan_s3_deep env r = some out ∧
      ((∃ e ∈ out, e.name = b) ↔ r = bucketRegionOf loc) := by
    intro r
    refine ⟨bs.filterMap (s3BucketStep env r), by simp [scan_s3_deep, hbs], ?_⟩
    constructor
    · rintro ⟨e, he, hname⟩
      obtain ⟨a, ha, hfa⟩ := List.mem_filterMap.mp he
      obtain ⟨hea, loc2, hla, hrg⟩ := s3BucketStep_eq_some env r a e hfa
      have hab : a = b := by rw [← hea, hname]
      subst hab
      rw [hloc] at hla
      have := Except.ok.inj hla
      subst this
      exact hrg.symm
    · intro hr
      cases htag : env.tagging b with
      | ok ts =>
        exact ⟨{ name := b, tags := ts },
          List.mem_filterMap.mpr ⟨b, hb, by simp [s3BucketStep, htag, hloc, hr.symm]⟩, rfl⟩
      | error u =>
        exact ⟨{ name := b, tags := [] },
          List.mem_filterMap.mpr ⟨b, hb, by simp [s3BucketStep, htag, hloc, hr.symm]⟩, rfl⟩
  refine ⟨hmain, ?_⟩
  intro r1 r2 out1 out2 h1 h2 hm1 hm2
  obtain ⟨o1, ho1, hiff1⟩ := hmain r1
  obtain ⟨o2, ho2, hiff2⟩ := hmain r2
  rw [h1] at ho1
  rw [h2] at ho2
  have e1 : out1 = o1 := Option.some.inj ho1
  have e2 : out2 = o2 := Option.some.inj ho2
  subst e1
  subst e2
  exact (hiff1.mp hm1).trans (hiff2.mp hm2).symm

/-- Witness for C9: the ap-south-1 bucket appears in the ap-south-1 scan and
not in the us-east-1 scan. -/
theorem c9_s3_region_attribution_witness :
    (∃ out, scan_s3_deep s3ApSouthEnv "ap-south-1" = some out ∧
      ∃ e ∈ out, e.name = "b1") ∧
    (∃ out, scan_s3_deep s3ApSouthEnv "us-east-1" = some out ∧
      ¬ ∃ e ∈ out, e.name = "b1") := by
  constructor
  · obtain ⟨out, hout, hiff⟩ := (c9_s3_region_attribution s3ApSouthEnv ["b1"] "b1"
      (some "ap-south-1") rfl (by simp) rfl).1 "ap-south-1"
    exact ⟨out, hout, hiff.mpr (by decide)⟩
  · obtain ⟨out, hout, hiff⟩ := (c9_s3_region_attribution s3ApSouthEnv ["b1"] "b1"
      (some "ap-south-1") rfl (by simp) rfl).1 "us-east-1"
    refine ⟨out, hout, fun hmem => ?_⟩
    have : "us-east-1" = bucketRegionOf (some "ap-south-1") := hiff.mp hmem
    simp [bucketRegionOf] at this
